import Mathlib

/-!
Verification of the `deprun` actor group (package `deprun`, files
`group.go` and the dependency/gate file).

The Go code is embedded shallowly:

* `Dependency` (a one-shot latch built from `sync.Once` + a closed channel +
  an `interrupted` flag) becomes `GateState` with the two resolution
  operations `resolveReady` / `resolveInterrupt` and the observation
  `waitOutcome` (`wait` returns `!interrupted` once the channel is closed).
* An actor's `execute` body interacts with the core only by (possibly)
  calling its `ready` capability and by returning an `error`; a deterministic
  body is embedded as a finite script of effect-relevant steps
  (`ActorAction.sigReady` = a call of the ready capability,
  `ActorAction.work` = an internal step) plus the returned error value
  (`Option E`, `none` = `nil`).
* `Group.Run` spawns one thread per actor; each thread runs
  `WaitDeps` (scanning the whole `dependsOn` list, skipping `nil` entries,
  blocking on each unresolved gate and recording whether any gate was
  interrupted) and then either sends `nil` (when blocked) or runs `execute`
  and sends its result on the buffered `errors` channel.  The scheduler
  receives the first value, interrupts every actor's gate and invokes every
  interrupt callback with that value, drains the remaining sends, and
  returns the first value.  All of this is embedded as a labelled small-step
  transition system over `Config`; the only nondeterminism is which thread
  (or the scheduler) takes the next step, exactly as in the Go runtime.
* Interrupt-callback invocations are recorded in the ghost log `intrLog`;
  sends are recorded (with their sender) in the ghost log `sentLog`, whose
  head is the first completion `Run` receives.
-/

namespace Deprun

/-- State of a `Dependency` gate: `pending` before `once` has fired,
`ready` after `ready()` won the race, `interrupted` after `interrupt()`
won the race (`interrupted = true` and channel closed). -/
inductive GateState : Type
  | pending
  | ready
  | interrupted
  deriving DecidableEq, Repr

/-- The body of `Dependency.ready`: `once.Do(close ch)`, a no-op unless the
gate is still pending. -/
def resolveReady : GateState → GateState
  | .pending => .ready
  | s => s

/-- The body of `Dependency.interrupt`: `once.Do(interrupted = true; close ch)`,
a no-op unless the gate is still pending. -/
def resolveInterrupt : GateState → GateState
  | .pending => .interrupted
  | s => s

/-- A resolution request against a gate: `rdy` for `ready()`,
`intr` for `interrupt()`. -/
inductive GateOp : Type
  | rdy
  | intr
  deriving DecidableEq, Repr

/-- Apply one resolution request. -/
def applyOp : GateOp → GateState → GateState
  | .rdy => resolveReady
  | .intr => resolveInterrupt

/-- Apply a sequence of resolution requests, oldest first. -/
def applyOps : List GateOp → GateState → GateState
  | [], s => s
  | op :: ops, s => applyOps ops (applyOp op s)

/-- What `Dependency.wait` observes: blocked (`none`) while pending,
`some true` once ready, `some false` once interrupted
(`wait` returns `!interrupted` after `<-ch` unblocks). -/
def waitOutcome : GateState → Option Bool
  | .pending => none
  | .ready => some true
  | .interrupted => some false

/-- One effect-relevant step of an `execute` body: a call of the `ready`
capability bound to the actor's own gate, or an internal computation step. -/
inductive ActorAction : Type
  | sigReady
  | work
  deriving DecidableEq, Repr

/-- The embedding of one registered `actor` record: its `execute` body
(script plus returned error value) and its `dependsOn` list.  A dependency
entry is the index of the providing actor's gate; `none` is a `nil`
`*Dependency` pointer.  The `provides` gate is implicit: actor `i` owns
gate `i`.  The `interrupt` callback is identified by the actor's index and
its invocations are recorded in the ghost log. -/
structure ActorSpec (E : Type) where
  script : List ActorAction
  retVal : Option E
  dependsOn : List (Option Nat)
  deriving DecidableEq, Repr

/-- Control state of one actor's goroutine: scanning `dependsOn` at index
`j` with the accumulated `interrupted` flag `blocked` (`WaitDeps`); running
the remaining `execute` script; or finished (its send performed). -/
inductive ThreadState : Type
  | waiting (j : Nat) (blocked : Bool)
  | running (rest : List ActorAction)
  | done
  deriving DecidableEq, Repr

/-- Control state of the `Run` caller: blocked on the first receive;
looping over actors interrupting gate `k` and calling callback `k`;
draining with `c` receives performed so far; or returned. -/
inductive SchedState (E : Type) : Type
  | recvFirst
  | interrupting (k : Nat) (err : Option E)
  | draining (c : Nat) (err : Option E)
  | returned (err : Option E)
  deriving DecidableEq, Repr

/-- A global configuration of a run: gate states (gate `i` belongs to actor
`i`), thread states, the buffered `errors` channel contents, the ghost log
of all sends (sender index, sent value) in send order, the ghost log of
interrupt-callback invocations (actor index, error argument), and the
scheduler state. -/
structure Config (E : Type) where
  gates : List GateState
  threads : List ThreadState
  chan : List (Option E)
  sentLog : List (Nat × Option E)
  intrLog : List (Nat × Option E)
  sched : SchedState E
  deriving DecidableEq, Repr

variable {E : Type}

/-- The configuration at the start of `Run`: all gates pending, every
thread about to scan its dependencies, empty channel and logs.  With zero
actors `Run` returns `nil` at once without spawning anything
(`if len(g.actors) == 0 { return nil }`). -/
def initConfig (g : List (ActorSpec E)) : Config E :=
  { gates := List.replicate g.length .pending
    threads := List.replicate g.length (.waiting 0 false)
    chan := []
    sentLog := []
    intrLog := []
    sched := if g.length = 0 then .returned none else .recvFirst }

/-- Replace thread `i`'s control state. -/
def setThread (c : Config E) (i : Nat) (t : ThreadState) : Config E :=
  { c with threads := c.threads.set i t }

/-- Replace gate `k`'s state. -/
def setGate (c : Config E) (k : Nat) (s : GateState) : Config E :=
  { c with gates := c.gates.set k s }

/-- Read gate `k` (in-range in every reachable configuration). -/
def getGate (c : Config E) (k : Nat) : GateState :=
  (c.gates[k]?).getD .pending

/-- Thread `i` performs `errors <- v` (the channel is buffered to the actor
count, so a send never blocks); the ghost log records the sender. -/
def sendVal (c : Config E) (i : Nat) (v : Option E) : Config E :=
  { c with chan := c.chan ++ [v], sentLog := c.sentLog ++ [(i, v)] }

/-- One step of actor `i`'s goroutine, `none` when it is blocked (a `wait`
on a pending gate) or already done.  Mirrors the goroutine body
`if !a.WaitDeps() { errors <- nil; return }; errors <- a.execute(a.provides.ready)`
together with the `WaitDeps` loop. -/
def stepActor (g : List (ActorSpec E)) (c : Config E) (i : Nat) :
    Option (Config E) :=
  match g[i]?, c.threads[i]? with
  | some spec, some (.waiting j b) =>
    match spec.dependsOn[j]? with
    | some none => some (setThread c i (.waiting (j + 1) b))
    | some (some k) =>
      match c.gates[k]? with
      | some .ready => some (setThread c i (.waiting (j + 1) b))
      | some .interrupted => some (setThread c i (.waiting (j + 1) true))
      | _ => none
    | none =>
      if b then some (sendVal (setThread c i .done) i none)
      else some (setThread c i (.running spec.script))
  | some _, some (.running (.sigReady :: rest)) =>
    some (setGate (setThread c i (.running rest)) i (resolveReady (getGate c i)))
  | some _, some (.running (.work :: rest)) =>
    some (setThread c i (.running rest))
  | some spec, some (.running []) =>
    some (sendVal (setThread c i .done) i spec.retVal)
  | _, _ => none

/-- One step of the `Run` caller: the first receive, one iteration of the
interrupt loop (`a.provides.interrupt(); a.interrupt(err)` for actor `k`),
one draining receive, or nothing once returned. -/
def stepSched (g : List (ActorSpec E)) (c : Config E) : Option (Config E) :=
  match c.sched with
  | .recvFirst =>
    match c.chan with
    | v :: rest => some { c with chan := rest, sched := .interrupting 0 v }
    | [] => none
  | .interrupting k e =>
    if k < g.length then
      some { setGate c k (resolveInterrupt (getGate c k)) with
              intrLog := c.intrLog ++ [(k, e)]
              sched := .interrupting (k + 1) e }
    else
      some { c with sched := .draining 1 e }
  | .draining n e =>
    if n < g.length then
      match c.chan with
      | _ :: rest => some { c with chan := rest, sched := .draining (n + 1) e }
      | [] => none
    else
      some { c with sched := .returned e }
  | .returned _ => none

/-- Who takes the next step: actor `i`'s goroutine or the `Run` caller. -/
inductive Label : Type
  | actTick (i : Nat)
  | schedTick
  deriving DecidableEq, Repr

/-- Apply one scheduling choice. -/
def applyLabel (g : List (ActorSpec E)) (c : Config E) :
    Label → Option (Config E)
  | .actTick i => stepActor g c i
  | .schedTick => stepSched g c

/-- The interleaving semantics: some thread of control takes its next
enabled step.  This is the only source of nondeterminism, exactly as for
the Go scheduler. -/
def Step (g : List (ActorSpec E)) (c c' : Config E) : Prop :=
  ∃ l, applyLabel g c l = some c'

/-- All configurations reachable from `c` under some interleaving. -/
def Reach (g : List (ActorSpec E)) : Config E → Config E → Prop :=
  Relation.ReflTransGen (Step g)

/-- Run an explicit schedule (used to exhibit concrete executions). -/
def runLabels (g : List (ActorSpec E)) (c : Config E) :
    List Label → Option (Config E)
  | [] => some c
  | l :: ls =>
    match applyLabel g c l with
    | some c' => runLabels g c' ls
    | none => none

theorem runLabels_reach {g : List (ActorSpec E)} {c c' : Config E}
    {ls : List Label} (h : runLabels g c ls = some c') : Reach g c c' := by
  induction ls generalizing c with
  | nil =>
    simp [runLabels] at h
    exact h ▸ Relation.ReflTransGen.refl
  | cons l ls ih =>
    simp only [runLabels] at h
    cases hl : applyLabel g c l with
    | none => rw [hl] at h; exact absurd h (by simp)
    | some c₁ =>
      rw [hl] at h
      exact Relation.ReflTransGen.head ⟨l, hl⟩ (ih h)


@[simp] theorem setThread_gates (c : Config E) (i t) :
    (setThread c i t).gates = c.gates := rfl

@[simp] theorem setThread_threads (c : Config E) (i t) :
    (setThread c i t).threads = c.threads.set i t := rfl

@[simp] theorem setThread_chan (c : Config E) (i t) :
    (setThread c i t).chan = c.chan := rfl

@[simp] theorem setThread_sentLog (c : Config E) (i t) :
    (setThread c i t).sentLog = c.sentLog := rfl

@[simp] theorem setThread_intrLog (c : Config E) (i t) :
    (setThread c i t).intrLog = c.intrLog := rfl

@[simp] theorem setThread_sched (c : Config E) (i t) :
    (setThread c i t).sched = c.sched := rfl

@[simp] theorem setGate_gates (c : Config E) (k s) :
    (setGate c k s).gates = c.gates.set k s := rfl

@[simp] theorem setGate_threads (c : Config E) (k s) :
    (setGate c k s).threads = c.threads := rfl

@[simp] theorem setGate_chan (c : Config E) (k s) :
    (setGate c k s).chan = c.chan := rfl

@[simp] theorem setGate_sentLog (c : Config E) (k s) :
    (setGate c k s).sentLog = c.sentLog := rfl

@[simp] theorem setGate_intrLog (c : Config E) (k s) :
    (setGate c k s).intrLog = c.intrLog := rfl

@[simp] theorem setGate_sched (c : Config E) (k s) :
    (setGate c k s).sched = c.sched := rfl

@[simp] theorem sendVal_gates (c : Config E) (i v) :
    (sendVal c i v).gates = c.gates := rfl

@[simp] theorem sendVal_threads (c : Config E) (i v) :
    (sendVal c i v).threads = c.threads := rfl

@[simp] theorem sendVal_chan (c : Config E) (i v) :
    (sendVal c i v).chan = c.chan ++ [v] := rfl

@[simp] theorem sendVal_sentLog (c : Config E) (i v) :
    (sendVal c i v).sentLog = c.sentLog ++ [(i, v)] := rfl

@[simp] theorem sendVal_intrLog (c : Config E) (i v) :
    (sendVal c i v).intrLog = c.intrLog := rfl

@[simp] theorem sendVal_sched (c : Config E) (i v) :
    (sendVal c i v).sched = c.sched := rfl

theorem resolveReady_ne_pending (s : GateState) :
    resolveReady s ≠ .pending := by cases s <;> simp [resolveReady]

theorem resolveInterrupt_ne_pending (s : GateState) :
    resolveInterrupt s ≠ .pending := by cases s <;> simp [resolveInterrupt]

theorem resolveReady_of_ne_pending {s : GateState} (h : s ≠ .pending) :
    resolveReady s = s := by cases s <;> simp_all [resolveReady]

theorem resolveInterrupt_of_ne_pending {s : GateState} (h : s ≠ .pending) :
    resolveInterrupt s = s := by cases s <;> simp_all [resolveInterrupt]

/-- Gate states only evolve by resolving pending gates: a resolved gate
keeps its value forever, and the gate list's length is fixed. -/
structure GateEvolve (gs gs' : List GateState) : Prop where
  len : gs.length = gs'.length
  keep : ∀ (k : Nat) (s : GateState), gs[k]? = some s → s ≠ .pending →
    gs'[k]? = some s

theorem GateEvolve.rfl (gs : List GateState) : GateEvolve gs gs :=
  ⟨Eq.refl _, fun _ _ h _ => h⟩

theorem GateEvolve.not_pending {gs gs' : List GateState}
    (hev : GateEvolve gs gs') {k : Nat} (h : gs[k]? ≠ some .pending) :
    gs'[k]? ≠ some .pending := by
  cases hx : gs[k]? with
  | none =>
    have hlen : gs.length ≤ k := List.getElem?_eq_none_iff.mp hx
    have : gs'[k]? = none := List.getElem?_eq_none_iff.mpr (hev.len ▸ hlen)
    simp [this]
  | some s =>
    have hs : s ≠ .pending := by rintro rfl; exact h hx
    rw [hev.keep k s hx hs]
    simpa using hs

/-- The `WaitDeps` loop invariant of one thread, over the gate list `gs`:
the scanning position `j` is in range, every already-scanned non-`nil`
dependency has been observed resolved, and the accumulated flag `b` records
exactly whether some scanned dependency resolved as interrupted. -/
def WaitProp (gs : List GateState) (deps : List (Option Nat))
    (j : Nat) (b : Bool) : Prop :=
  j ≤ deps.length ∧
  (∀ (j' k : Nat), j' < j → deps[j']? = some (some k) →
    ∃ s : GateState, gs[k]? = some s ∧ s ≠ .pending) ∧
  (b = true ↔ ∃ (j' k : Nat), j' < j ∧ deps[j']? = some (some k) ∧
    gs[k]? = some .interrupted)

/-- Once a thread is executing its body, every non-`nil` input gate is
resolved ready. -/
def RunProp (gs : List GateState) (deps : List (Option Nat)) : Prop :=
  ∀ (j k : Nat), deps[j]? = some (some k) → gs[k]? = some .ready

theorem waitProp_mono {gs gs' : List GateState} (hev : GateEvolve gs gs')
    {deps j b} (h : WaitProp gs deps j b) : WaitProp gs' deps j b := by
  obtain ⟨h1, h2, h3⟩ := h
  refine ⟨h1, ?_, ?_⟩
  · intro j' k hj hd
    obtain ⟨s, hs, hsne⟩ := h2 j' k hj hd
    exact ⟨s, hev.keep k s hs hsne, hsne⟩
  · rw [h3]
    constructor
    · rintro ⟨j', k, hj, hd, hg⟩
      exact ⟨j', k, hj, hd, hev.keep k _ hg (by simp)⟩
    · rintro ⟨j', k, hj, hd, hg⟩
      obtain ⟨s, hs, hsne⟩ := h2 j' k hj hd
      have hkeep := hev.keep k s hs hsne
      rw [hkeep] at hg
      injection hg with hg
      subst hg
      exact ⟨j', k, hj, hd, hs⟩

theorem runProp_mono {gs gs' : List GateState} (hev : GateEvolve gs gs')
    {deps} (h : RunProp gs deps) : RunProp gs' deps := by
  unfold RunProp at h ⊢
  intro j k hd
  exact hev.keep k _ (h j k hd) (by simp)

theorem head?_map_append {α β : Type} {l : List (α × β)} {e : β}
    (h : l.head?.map Prod.snd = some e) (x : α × β) :
    (l ++ [x]).head?.map Prod.snd = some e := by
  cases l <;> simp_all

/-- The global invariant of a run of `Group.Run`, preserved by every step
from the initial configuration. -/
structure Inv (g : List (ActorSpec E)) (c : Config E) : Prop where
  gatesLen : c.gates.length = g.length
  threadsLen : c.threads.length = g.length
  noIntr : c.sched = .recvFirst → ∀ (k : Nat), c.gates[k]? ≠ some .interrupted
  chanFirst : c.sched = .recvFirst →
    c.chan = c.sentLog.map Prod.snd ∧ c.intrLog = []
  schedIntr : ∀ (k : Nat) (e : Option E), c.sched = .interrupting k e →
    k ≤ g.length ∧ c.sentLog.head?.map Prod.snd = some e ∧
    c.intrLog = (List.range k).map (fun i => (i, e)) ∧
    ∀ (i : Nat), i < k → c.gates[i]? ≠ some .pending
  schedDrain : ∀ (n : Nat) (e : Option E), c.sched = .draining n e →
    c.sentLog.head?.map Prod.snd = some e ∧
    c.intrLog = (List.range g.length).map (fun i => (i, e)) ∧
    ∀ (i : Nat), i < g.length → c.gates[i]? ≠ some .pending
  schedRet : ∀ (e : Option E), c.sched = .returned e →
    (g = [] ∧ e = none ∧ c.sentLog = [] ∧ c.intrLog = []) ∨
    (c.sentLog.head?.map Prod.snd = some e ∧
     c.intrLog = (List.range g.length).map (fun i => (i, e)) ∧
     ∀ (i : Nat), i < g.length → c.gates[i]? ≠ some .pending)
  firstSent : ∀ (i : Nat) (v : Option E), c.sentLog.head? = some (i, v) →
    ∃ s : ActorSpec E, g[i]? = some s ∧ v = s.retVal
  waitInv : ∀ (i : Nat) (spec : ActorSpec E) (j : Nat) (b : Bool), g[i]? = some spec →
    c.threads[i]? = some (.waiting j b) →
    WaitProp c.gates spec.dependsOn j b
  runInv : ∀ (i : Nat) (spec : ActorSpec E) (rest : List ActorAction), g[i]? = some spec →
    c.threads[i]? = some (.running rest) →
    rest.IsSuffix spec.script ∧ RunProp c.gates spec.dependsOn
  readySrc : ∀ (k : Nat) (spec : ActorSpec E), g[k]? = some spec → c.gates[k]? = some .ready →
    ActorAction.sigReady ∈ spec.script

theorem getElem?_set_self_of_lt {α : Type} {l : List α} {i : Nat} (a : α)
    (h : i < l.length) : (l.set i a)[i]? = some a := by
  rw [List.getElem?_set_self', List.getElem?_eq_getElem h]; rfl

theorem GateEvolve.set_resolve (gs : List GateState) (k : Nat)
    (f : GateState → GateState) (hf : ∀ s, s ≠ .pending → f s = s) :
    GateEvolve gs (gs.set k (f ((gs[k]?).getD .pending))) := by
  refine ⟨(List.length_set gs k _).symm, ?_⟩
  intro k' s hk' hs
  by_cases hkk : k = k'
  · subst hkk
    have hlt : k < gs.length := (List.getElem?_eq_some_iff.mp hk').1
    have hgd : ((gs[k]?).getD GateState.pending) = s := by rw [hk']; rfl
    rw [hgd, hf s hs]
    exact getElem?_set_self_of_lt _ hlt
  · rw [List.getElem?_set_ne hkk]
    exact hk'

/-- Rebuild the invariant after a step that only rewrites thread `i`'s
control state (all other configuration components untouched). -/
theorem inv_setThread {g : List (ActorSpec E)} {c : Config E}
    (hi : Inv g c) {i : Nat} {spec : ActorSpec E} {t : ThreadState}
    (hg : g[i]? = some spec) (hlt : i < c.threads.length)
    (twait : ∀ (j : Nat) (b : Bool), t = .waiting j b →
      WaitProp c.gates spec.dependsOn j b)
    (trun : ∀ rest : List ActorAction, t = .running rest →
      rest.IsSuffix spec.script ∧ RunProp c.gates spec.dependsOn) :
    Inv g (setThread c i t) := by
  obtain ⟨len1, len2, ni, cf, si, sd, sr, fs, wi, ri, rs⟩ := hi
  refine ⟨by simpa using len1, by simpa using len2, by simpa using ni,
    by simpa using cf, by simpa using si, by simpa using sd,
    by simpa using sr, by simpa using fs, ?_, ?_, by simpa using rs⟩
  · intro i' spec' j b hg' ht'
    simp only [setThread_threads, setThread_gates] at ht' ⊢
    by_cases hii : i = i'
    · subst hii
      rw [getElem?_set_self_of_lt _ hlt] at ht'
      injection ht' with ht'
      rw [hg] at hg'
      injection hg' with hg'
      subst hg'
      exact twait j b ht'
    · rw [List.getElem?_set_ne hii] at ht'
      exact wi i' spec' j b hg' ht'
  · intro i' spec' rest hg' ht'
    simp only [setThread_threads, setThread_gates] at ht' ⊢
    by_cases hii : i = i'
    · subst hii
      rw [getElem?_set_self_of_lt _ hlt] at ht'
      injection ht' with ht'
      rw [hg] at hg'
      injection hg' with hg'
      subst hg'
      exact trun rest ht'
    · rw [List.getElem?_set_ne hii] at ht'
      exact ri i' spec' rest hg' ht'

/-- Rebuild the invariant after thread `i` finishes: its state becomes
`done` and it sends `v` on the channel. -/
theorem inv_sendDone {g : List (ActorSpec E)} {c : Config E}
    (hi : Inv g c) {i : Nat} {spec : ActorSpec E} {v : Option E}
    (hg : g[i]? = some spec) (hlt : i < c.threads.length)
    (hv : c.sentLog = [] → v = spec.retVal) :
    Inv g (sendVal (setThread c i .done) i v) := by
  obtain ⟨len1, len2, ni, cf, si, sd, sr, fs, wi, ri, rs⟩ := hi
  have hgne : g ≠ [] := by
    intro hnil
    rw [hnil] at hg
    simp at hg
  refine ⟨by simpa using len1, by simpa using len2, by simpa using ni,
    ?_, ?_, ?_, ?_, ?_, ?_, ?_, by simpa using rs⟩
  · intro hsched
    simp only [sendVal_sched, setThread_sched] at hsched
    obtain ⟨h1, h2⟩ := cf hsched
    constructor
    · simp [h1]
    · simpa using h2
  · intro k e hsched
    simp only [sendVal_sched, setThread_sched] at hsched
    obtain ⟨h1, h2, h3, h4⟩ := si k e hsched
    refine ⟨h1, ?_, by simpa using h3, by simpa using h4⟩
    simp only [sendVal_sentLog, setThread_sentLog]
    exact head?_map_append h2 (i, v)
  · intro n e hsched
    simp only [sendVal_sched, setThread_sched] at hsched
    obtain ⟨h1, h2, h3⟩ := sd n e hsched
    refine ⟨?_, by simpa using h2, by simpa using h3⟩
    simp only [sendVal_sentLog, setThread_sentLog]
    exact head?_map_append h1 (i, v)
  · intro e hsched
    simp only [sendVal_sched, setThread_sched] at hsched
    rcases sr e hsched with ⟨hnil, _⟩ | ⟨h1, h2, h3⟩
    · exact absurd hnil hgne
    · refine Or.inr ⟨?_, by simpa using h2, by simpa using h3⟩
      simp only [sendVal_sentLog, setThread_sentLog]
      exact head?_map_append h1 (i, v)
  · intro i' v' hh
    simp only [sendVal_sentLog, setThread_sentLog] at hh
    cases hsl : c.sentLog with
    | nil =>
      rw [hsl] at hh
      simp at hh
      obtain ⟨rfl, rfl⟩ := hh
      exact ⟨spec, hg, hv hsl⟩
    | cons p l' =>
      rw [hsl] at hh
      simp at hh
      subst hh
      exact fs i' v' (by rw [hsl]; rfl)
  · intro i' spec' j b hg' ht'
    simp only [sendVal_threads, setThread_threads, sendVal_gates,
      setThread_gates] at ht' ⊢
    by_cases hii : i = i'
    · subst hii
      rw [getElem?_set_self_of_lt _ hlt] at ht'
      exact absurd ht' (by simp)
    · rw [List.getElem?_set_ne hii] at ht'
      exact wi i' spec' j b hg' ht'
  · intro i' spec' rest hg' ht'
    simp only [sendVal_threads, setThread_threads, sendVal_gates,
      setThread_gates] at ht' ⊢
    by_cases hii : i = i'
    · subst hii
      rw [getElem?_set_self_of_lt _ hlt] at ht'
      exact absurd ht' (by simp)
    · rw [List.getElem?_set_ne hii] at ht'
      exact ri i' spec' rest hg' ht'

set_option maxHeartbeats 1000000 in
theorem inv_actor_step {g : List (ActorSpec E)} {c c' : Config E} {i : Nat}
    (hi : Inv g c) (h : stepActor g c i = some c') : Inv g c' := by
  unfold stepActor at h
  split at h
  case h_1 spec j b hg ht =>
    have hlt : i < c.threads.length := (List.getElem?_eq_some_iff.mp ht).1
    obtain ⟨hj, hscan, hflag⟩ := hi.waitInv i spec j b hg ht
    split at h
    case h_1 hd =>
      injection h with h
      subst h
      have hjlt : j < spec.dependsOn.length := (List.getElem?_eq_some_iff.mp hd).1
      refine inv_setThread hi hg hlt ?_ ?_
      · intro j₀ b₀ ht₀
        injection ht₀ with h1 h2
        subst h1
        subst h2
        refine ⟨Nat.succ_le_of_lt hjlt, ?_, ?_⟩
        · intro j' k hj' hdk
          rcases Nat.lt_succ_iff_lt_or_eq.mp hj' with hlt' | rfl
          · exact hscan j' k hlt' hdk
          · rw [hd] at hdk
            exact absurd hdk (by simp)
        · constructor
          · intro hb
            obtain ⟨j', k, hj', hdk, hgk⟩ := hflag.mp hb
            exact ⟨j', k, Nat.lt_succ_of_lt hj', hdk, hgk⟩
          · rintro ⟨j', k, hj', hdk, hgk⟩
            rcases Nat.lt_succ_iff_lt_or_eq.mp hj' with hlt' | rfl
            · exact hflag.mpr ⟨j', k, hlt', hdk, hgk⟩
            · rw [hd] at hdk
              exact absurd hdk (by simp)
      · intro rest htr
        exact absurd htr (by simp)
    case h_2 k hd =>
      have hjlt : j < spec.dependsOn.length := (List.getElem?_eq_some_iff.mp hd).1
      split at h
      case h_1 hgk =>
        injection h with h
        subst h
        refine inv_setThread hi hg hlt ?_ ?_
        · intro j₀ b₀ ht₀
          injection ht₀ with h1 h2
          subst h1
          subst h2
          refine ⟨Nat.succ_le_of_lt hjlt, ?_, ?_⟩
          · intro j' k' hj' hdk
            rcases Nat.lt_succ_iff_lt_or_eq.mp hj' with hlt' | rfl
            · exact hscan j' k' hlt' hdk
            · rw [hd] at hdk
              injection hdk with hdk
              injection hdk with hdk
              subst hdk
              exact ⟨.ready, hgk, by simp⟩
          · constructor
            · intro hb
              obtain ⟨j', k', hj', hdk, hgk'⟩ := hflag.mp hb
              exact ⟨j', k', Nat.lt_succ_of_lt hj', hdk, hgk'⟩
            · rintro ⟨j', k', hj', hdk, hgk'⟩
              rcases Nat.lt_succ_iff_lt_or_eq.mp hj' with hlt' | rfl
              · exact hflag.mpr ⟨j', k', hlt', hdk, hgk'⟩
              · rw [hd] at hdk
                injection hdk with hdk
                injection hdk with hdk
                subst hdk
                rw [hgk] at hgk'
                exact absurd hgk' (by simp)
        · intro rest htr
          exact absurd htr (by simp)
      case h_2 hgk =>
        injection h with h
        subst h
        refine inv_setThread hi hg hlt ?_ ?_
        · intro j₀ b₀ ht₀
          injection ht₀ with h1 h2
          subst h1
          subst h2
          refine ⟨Nat.succ_le_of_lt hjlt, ?_, ?_⟩
          · intro j' k' hj' hdk
            rcases Nat.lt_succ_iff_lt_or_eq.mp hj' with hlt' | rfl
            · exact hscan j' k' hlt' hdk
            · rw [hd] at hdk
              injection hdk with hdk
              injection hdk with hdk
              subst hdk
              exact ⟨.interrupted, hgk, by simp⟩
          · exact iff_of_true rfl ⟨j, k, Nat.lt_succ_self j, hd, hgk⟩
        · intro rest htr
          exact absurd htr (by simp)
      case h_3 =>
        exact absurd h (by simp)
    case h_3 hd =>
      have hjlen : spec.dependsOn.length ≤ j := List.getElem?_eq_none_iff.mp hd
      split at h
      case isTrue hb =>
        injection h with h
        subst h
        refine inv_sendDone hi hg hlt ?_
        intro hsl
        exfalso
        obtain ⟨j', k, hj', hdk, hgk⟩ := hflag.mp hb
        cases hsched : c.sched with
        | recvFirst => exact hi.noIntr hsched k hgk
        | interrupting k₀ e =>
          obtain ⟨_, h2, _, _⟩ := hi.schedIntr k₀ e hsched
          rw [hsl] at h2
          exact absurd h2 (by simp)
        | draining n e =>
          obtain ⟨h1, _, _⟩ := hi.schedDrain n e hsched
          rw [hsl] at h1
          exact absurd h1 (by simp)
        | returned e =>
          rcases hi.schedRet e hsched with ⟨hnil, _⟩ | ⟨h1, _, _⟩
          · rw [hnil] at hg
            exact absurd hg (by simp)
          · rw [hsl] at h1
            exact absurd h1 (by simp)
      case isFalse hb =>
        injection h with h
        subst h
        refine inv_setThread hi hg hlt ?_ ?_
        · intro j₀ b₀ ht₀
          exact absurd ht₀ (by simp)
        · intro rest htr
          injection htr with htr
          subst htr
          refine ⟨List.suffix_refl _, ?_⟩
          intro j₀ k hdk
          have hj₀ : j₀ < spec.dependsOn.length :=
            (List.getElem?_eq_some_iff.mp hdk).1
          obtain ⟨s, hs, hsne⟩ := hscan j₀ k (by omega) hdk
          have hnint : c.gates[k]? ≠ some .interrupted := by
            intro hgk
            exact hb (hflag.mpr ⟨j₀, k, by omega, hdk, hgk⟩)
          cases s with
          | pending => exact absurd rfl hsne
          | ready => exact hs
          | interrupted => exact absurd hs hnint
  case h_2 spec rest hg ht =>
    injection h with h
    subst h
    have hlt : i < c.threads.length := (List.getElem?_eq_some_iff.mp ht).1
    have hltg : i < c.gates.length := by
      rw [hi.gatesLen]
      rw [hi.threadsLen] at hlt
      exact hlt
    obtain ⟨s₀, hs₀⟩ : ∃ s₀, c.gates[i]? = some s₀ :=
      ⟨c.gates[i], List.getElem?_eq_getElem hltg⟩
    obtain ⟨hsuf, hrp⟩ := hi.runInv i spec _ hg ht
    have hev : GateEvolve c.gates
        (c.gates.set i (resolveReady (getGate c i))) :=
      GateEvolve.set_resolve c.gates i resolveReady
        (fun s hs => resolveReady_of_ne_pending hs)
    have hgi : (c.gates.set i (resolveReady (getGate c i)))[i]? =
        some (resolveReady s₀) := by
      have : getGate c i = s₀ := by unfold getGate; rw [hs₀]; rfl
      rw [this]
      exact getElem?_set_self_of_lt _ hltg
    refine ⟨?_, ?_, ?_, ?_, ?_, ?_, ?_, ?_, ?_, ?_, ?_⟩
    · simpa [List.length_set] using hi.gatesLen
    · simpa [List.length_set] using hi.threadsLen
    · intro hsched k
      simp only [setGate_sched, setThread_sched] at hsched
      simp only [setGate_gates, setThread_gates]
      by_cases hki : k = i
      · subst hki
        rw [hgi]
        intro heq'
        injection heq' with heq'
        have : s₀ = .interrupted := by
          cases s₀ <;> simp_all [resolveReady]
        exact hi.noIntr hsched k (this ▸ hs₀)
      · rw [List.getElem?_set_ne (fun hh => hki hh.symm)]
        exact hi.noIntr hsched k
    · intro hsched
      simp only [setGate_sched, setThread_sched] at hsched
      simpa using hi.chanFirst hsched
    · intro k e hsched
      simp only [setGate_sched, setThread_sched] at hsched
      obtain ⟨h1, h2, h3, h4⟩ := hi.schedIntr k e hsched
      refine ⟨h1, by simpa using h2, by simpa using h3, ?_⟩
      intro i' hi'
      simp only [setGate_gates, setThread_gates]
      exact hev.not_pending (h4 i' hi')
    · intro n e hsched
      simp only [setGate_sched, setThread_sched] at hsched
      obtain ⟨h1, h2, h3⟩ := hi.schedDrain n e hsched
      refine ⟨by simpa using h1, by simpa using h2, ?_⟩
      intro i' hi'
      simp only [setGate_gates, setThread_gates]
      exact hev.not_pending (h3 i' hi')
    · intro e hsched
      simp only [setGate_sched, setThread_sched] at hsched
      rcases hi.schedRet e hsched with ⟨hnil, he, hsl, hil⟩ | ⟨h1, h2, h3⟩
      · exact Or.inl ⟨hnil, he, by simpa using hsl, by simpa using hil⟩
      · refine Or.inr ⟨by simpa using h1, by simpa using h2, ?_⟩
        intro i' hi'
        simp only [setGate_gates, setThread_gates]
        exact hev.not_pending (h3 i' hi')
    · intro i' v hh
      simp only [setGate_sentLog, setThread_sentLog] at hh
      exact hi.firstSent i' v hh
    · intro i' spec' j b hg' ht'
      simp only [setGate_threads, setThread_threads] at ht'
      simp only [setGate_gates, setThread_gates]
      by_cases hii : i = i'
      · subst hii
        rw [getElem?_set_self_of_lt _ hlt] at ht'
        exact absurd ht' (by simp)
      · rw [List.getElem?_set_ne hii] at ht'
        exact waitProp_mono hev (hi.waitInv i' spec' j b hg' ht')
    · intro i' spec' rest' hg' ht'
      simp only [setGate_threads, setThread_threads] at ht'
      simp only [setGate_gates, setThread_gates]
      by_cases hii : i = i'
      · subst hii
        rw [getElem?_set_self_of_lt _ hlt] at ht'
        injection ht' with ht'
        injection ht' with ht'
        rw [hg] at hg'
        injection hg' with hg'
        subst hg'
        subst ht'
        exact ⟨(List.suffix_cons _ _).trans hsuf, runProp_mono hev hrp⟩
      · rw [List.getElem?_set_ne hii] at ht'
        exact ⟨(hi.runInv i' spec' rest' hg' ht').1,
          runProp_mono hev (hi.runInv i' spec' rest' hg' ht').2⟩
    · intro k spec' hg' hgk'
      simp only [setGate_gates, setThread_gates] at hgk'
      by_cases hki : k = i
      · subst hki
        rw [hgi] at hgk'
        injection hgk' with hgk'
        cases s₀ with
        | pending =>
          rw [hg] at hg'
          injection hg' with hg'
          subst hg'
          exact hsuf.subset (List.mem_cons_self _ _)
        | ready => exact hi.readySrc k spec' hg' hs₀
        | interrupted => exact absurd hgk' (by simp [resolveReady])
      · rw [List.getElem?_set_ne (fun hh => hki hh.symm)] at hgk'
        exact hi.readySrc k spec' hg' hgk'
  case h_3 spec rest hg ht =>
    injection h with h
    subst h
    have hlt : i < c.threads.length := (List.getElem?_eq_some_iff.mp ht).1
    obtain ⟨hsuf, hrp⟩ := hi.runInv i spec _ hg ht
    refine inv_setThread hi hg hlt ?_ ?_
    · intro j₀ b₀ ht₀
      exact absurd ht₀ (by simp)
    · intro rest' htr
      injection htr with htr
      subst htr
      exact ⟨(List.suffix_cons _ _).trans hsuf, hrp⟩
  case h_4 spec hg ht =>
    injection h with h
    subst h
    have hlt : i < c.threads.length := (List.getElem?_eq_some_iff.mp ht).1
    exact inv_sendDone hi hg hlt (fun _ => rfl)
  case h_5 =>
    exact absurd h (by simp)

set_option maxHeartbeats 1000000 in
theorem inv_sched_step {g : List (ActorSpec E)} {c c' : Config E}
    (hi : Inv g c) (h : stepSched g c = some c') : Inv g c' := by
  unfold stepSched at h
  split at h
  case h_1 heq =>
    split at h
    case h_1 v rest hc =>
      injection h with h
      subst h
      obtain ⟨hch, hil⟩ := hi.chanFirst heq
      refine ⟨hi.gatesLen, hi.threadsLen, ?_, ?_, ?_, ?_, ?_, ?_, ?_, ?_, ?_⟩
      · intro hsched
        simp at hsched
      · intro hsched
        simp at hsched
      · intro k e hsched
        simp only at hsched
        injection hsched with hk he
        subst hk
        subst he
        refine ⟨Nat.zero_le _, ?_, by simpa using hil, by omega⟩
        rw [hc] at hch
        cases hsl : c.sentLog with
        | nil =>
          rw [hsl] at hch
          exact absurd hch (by simp)
        | cons p l =>
          rw [hsl] at hch
          simp at hch
          simp [hsl, hch.1]
      · intro n e hsched
        simp at hsched
      · intro e hsched
        simp at hsched
      · exact hi.firstSent
      · exact hi.waitInv
      · exact hi.runInv
      · exact hi.readySrc
    case h_2 hc =>
      exact absurd h (by simp)
  case h_2 k e heq =>
    obtain ⟨h1, h2, h3, h4⟩ := hi.schedIntr k e heq
    split at h
    case isTrue hk =>
      injection h with h
      subst h
      have hltg : k < c.gates.length := by rw [hi.gatesLen]; exact hk
      obtain ⟨s₀, hs₀⟩ : ∃ s₀, c.gates[k]? = some s₀ :=
        ⟨c.gates[k], List.getElem?_eq_getElem hltg⟩
      have hev : GateEvolve c.gates
          (c.gates.set k (resolveInterrupt (getGate c k))) :=
        GateEvolve.set_resolve c.gates k resolveInterrupt
          (fun s hs => resolveInterrupt_of_ne_pending hs)
      have hgk : (c.gates.set k (resolveInterrupt (getGate c k)))[k]? =
          some (resolveInterrupt s₀) := by
        have : getGate c k = s₀ := by unfold getGate; rw [hs₀]; rfl
        rw [this]
        exact getElem?_set_self_of_lt _ hltg
      refine ⟨?_, ?_, ?_, ?_, ?_, ?_, ?_, ?_, ?_, ?_, ?_⟩
      · simpa [List.length_set] using hi.gatesLen
      · simpa using hi.threadsLen
      · intro hsched
        simp at hsched
      · intro hsched
        simp at hsched
      · intro k' e' hsched
        simp only at hsched
        injection hsched with hk' he'
        subst hk'
        subst he'
        refine ⟨Nat.succ_le_of_lt hk, by simpa using h2, ?_, ?_⟩
        · simp only [setGate_intrLog]
          rw [h3, List.range_succ]
          simp
        · intro i' hi'
          simp only [setGate_gates]
          rcases Nat.lt_succ_iff_lt_or_eq.mp hi' with hlt' | rfl
          · exact hev.not_pending (h4 i' hlt')
          · rw [hgk]
            intro heq'
            injection heq' with heq'
            exact resolveInterrupt_ne_pending s₀ heq'
      · intro n e' hsched
        simp at hsched
      · intro e' hsched
        simp at hsched
      · intro i' v hh
        simp only [setGate_sentLog] at hh
        exact hi.firstSent i' v hh
      · intro i' spec' j b hg' ht'
        simp only [setGate_threads] at ht'
        simp only [setGate_gates]
        exact waitProp_mono hev (hi.waitInv i' spec' j b hg' ht')
      · intro i' spec' rest' hg' ht'
        simp only [setGate_threads] at ht'
        simp only [setGate_gates]
        exact ⟨(hi.runInv i' spec' rest' hg' ht').1,
          runProp_mono hev (hi.runInv i' spec' rest' hg' ht').2⟩
      · intro k' spec' hg' hgk'
        simp only [setGate_gates] at hgk'
        by_cases hkk : k' = k
        · subst hkk
          rw [hgk] at hgk'
          injection hgk' with hgk'
          have : s₀ = .ready := by
            cases s₀ <;> simp_all [resolveInterrupt]
          exact hi.readySrc k' spec' hg' (this ▸ hs₀)
        · rw [List.getElem?_set_ne (fun hh => hkk hh.symm)] at hgk'
          exact hi.readySrc k' spec' hg' hgk'
    case isFalse hk =>
      injection h with h
      subst h
      have hkeq : k = g.length := by omega
      subst hkeq
      refine ⟨hi.gatesLen, hi.threadsLen, ?_, ?_, ?_, ?_, ?_, ?_, ?_, ?_, ?_⟩
      · intro hsched
        simp at hsched
      · intro hsched
        simp at hsched
      · intro k' e' hsched
        simp at hsched
      · intro n e' hsched
        simp only at hsched
        injection hsched with hn he'
        subst he'
        exact ⟨h2, h3, h4⟩
      · intro e' hsched
        simp at hsched
      · exact hi.firstSent
      · exact hi.waitInv
      · exact hi.runInv
      · exact hi.readySrc
  case h_3 n e heq =>
    obtain ⟨h1, h2, h3⟩ := hi.schedDrain n e heq
    split at h
    case isTrue hn =>
      split at h
      case h_1 v rest hc =>
        injection h with h
        subst h
        refine ⟨hi.gatesLen, hi.threadsLen, ?_, ?_, ?_, ?_, ?_, ?_, ?_, ?_, ?_⟩
        · intro hsched
          simp at hsched
        · intro hsched
          simp at hsched
        · intro k' e' hsched
          simp at hsched
        · intro n' e' hsched
          simp only at hsched
          injection hsched with hn' he'
          subst he'
          exact ⟨h1, h2, h3⟩
        · intro e' hsched
          simp at hsched
        · exact hi.firstSent
        · exact hi.waitInv
        · exact hi.runInv
        · exact hi.readySrc
      case h_2 hc =>
        exact absurd h (by simp)
    case isFalse hn =>
      injection h with h
      subst h
      refine ⟨hi.gatesLen, hi.threadsLen, ?_, ?_, ?_, ?_, ?_, ?_, ?_, ?_, ?_⟩
      · intro hsched
        simp at hsched
      · intro hsched
        simp at hsched
      · intro k' e' hsched
        simp at hsched
      · intro n' e' hsched
        simp at hsched
      · intro e' hsched
        simp only at hsched
        injection hsched with he'
        subst he'
        exact Or.inr ⟨h1, h2, h3⟩
      · exact hi.firstSent
      · exact hi.waitInv
      · exact hi.runInv
      · exact hi.readySrc
  case h_4 e heq =>
    exact absurd h (by simp)

theorem inv_init (g : List (ActorSpec E)) : Inv g (initConfig g) := by
  refine ⟨by simp [initConfig], by simp [initConfig], ?_, ?_, ?_, ?_, ?_,
    ?_, ?_, ?_, ?_⟩
  · intro _ k
    simp only [initConfig, List.getElem?_replicate]
    split <;> simp
  · intro _
    exact ⟨rfl, rfl⟩
  · intro k e hs
    simp only [initConfig] at hs
    split at hs <;> simp_all
  · intro n e hs
    simp only [initConfig] at hs
    split at hs <;> simp_all
  · intro e hs
    simp only [initConfig] at hs
    split at hs
    case isTrue hlen =>
      injection hs with hs
      subst hs
      exact Or.inl ⟨List.length_eq_zero.mp hlen, rfl, rfl, rfl⟩
    case isFalse hlen =>
      exact absurd hs (by simp)
  · intro i v hh
    simp [initConfig] at hh
  · intro i spec j b hg ht
    simp only [initConfig, List.getElem?_replicate] at ht
    split at ht
    case isTrue hlt =>
      injection ht with ht
      injection ht with h1 h2
      subst h1
      subst h2
      refine ⟨Nat.zero_le _, by omega, ?_⟩
      simp
    case isFalse hlt =>
      exact absurd ht (by simp)
  · intro i spec rest hg ht
    simp only [initConfig, List.getElem?_replicate] at ht
    split at ht <;> simp_all
  · intro k spec hg hgk
    simp only [initConfig, List.getElem?_replicate] at hgk
    split at hgk <;> simp_all

theorem inv_step {g : List (ActorSpec E)} {c c' : Config E}
    (hi : Inv g c) (hs : Step g c c') : Inv g c' := by
  obtain ⟨l, hl⟩ := hs
  cases l with
  | actTick i => exact inv_actor_step hi hl
  | schedTick => exact inv_sched_step hi hl

theorem inv_reach {g : List (ActorSpec E)} {c : Config E}
    (h : Reach g (initConfig g) c) : Inv g c := by
  have h' : Relation.ReflTransGen (Step g) (initConfig g) c := h
  induction h' with
  | refl => exact inv_init g
  | tail hab hbc ih => exact inv_step (ih hab) hbc

theorem stepActor_evolve {g : List (ActorSpec E)} {c c' : Config E} {i : Nat}
    (h : stepActor g c i = some c') : GateEvolve c.gates c'.gates := by
  unfold stepActor at h
  split at h
  case h_1 spec j b hg ht =>
    split at h
    case h_1 hd =>
      injection h with h
      subst h
      exact GateEvolve.rfl _
    case h_2 k hd =>
      split at h
      case h_1 hgk =>
        injection h with h
        subst h
        exact GateEvolve.rfl _
      case h_2 hgk =>
        injection h with h
        subst h
        exact GateEvolve.rfl _
      case h_3 =>
        exact absurd h (by simp)
    case h_3 hd =>
      split at h
      case isTrue hb =>
        injection h with h
        subst h
        exact GateEvolve.rfl _
      case isFalse hb =>
        injection h with h
        subst h
        exact GateEvolve.rfl _
  case h_2 spec rest hg ht =>
    injection h with h
    subst h
    exact GateEvolve.set_resolve c.gates i resolveReady
      (fun s hs => resolveReady_of_ne_pending hs)
  case h_3 spec rest hg ht =>
    injection h with h
    subst h
    exact GateEvolve.rfl _
  case h_4 spec hg ht =>
    injection h with h
    subst h
    exact GateEvolve.rfl _
  case h_5 =>
    exact absurd h (by simp)

theorem stepSched_evolve {g : List (ActorSpec E)} {c c' : Config E}
    (h : stepSched g c = some c') : GateEvolve c.gates c'.gates := by
  unfold stepSched at h
  split at h
  case h_1 heq =>
    split at h
    case h_1 v rest hc =>
      injection h with h
      subst h
      exact GateEvolve.rfl _
    case h_2 hc =>
      exact absurd h (by simp)
  case h_2 k e heq =>
    split at h
    case isTrue hk =>
      injection h with h
      subst h
      exact GateEvolve.set_resolve c.gates k resolveInterrupt
        (fun s hs => resolveInterrupt_of_ne_pending hs)
    case isFalse hk =>
      injection h with h
      subst h
      exact GateEvolve.rfl _
  case h_3 n e heq =>
    split at h
    case isTrue hn =>
      split at h
      case h_1 v rest hc =>
        injection h with h
        subst h
        exact GateEvolve.rfl _
      case h_2 hc =>
        exact absurd h (by simp)
    case isFalse hn =>
      injection h with h
      subst h
      exact GateEvolve.rfl _
  case h_4 e heq =>
    exact absurd h (by simp)

theorem step_evolve {g : List (ActorSpec E)} {c c' : Config E}
    (hs : Step g c c') : GateEvolve c.gates c'.gates := by
  obtain ⟨l, hl⟩ := hs
  cases l with
  | actTick i => exact stepActor_evolve hl
  | schedTick => exact stepSched_evolve hl

theorem reach_evolve {g : List (ActorSpec E)} {c c' : Config E}
    (h : Reach g c c') : GateEvolve c.gates c'.gates := by
  have h' : Relation.ReflTransGen (Step g) c c' := h
  induction h' with
  | refl => exact GateEvolve.rfl _
  | tail hab hbc ih =>
    exact ⟨(ih hab).len.trans (step_evolve hbc).len, fun k s hk hsne =>
      (step_evolve hbc).keep k s ((ih hab).keep k s hk hsne) hsne⟩

/-- The embedding of `Group`: the append-only list of registered actor
records (`g.actors = append(g.actors, actor)`). -/
structure Group (E : Type) where
  actors : List (ActorSpec E)
  deriving DecidableEq, Repr

/-- The embedding of `Group.AddDep`: append the actor record (with a fresh
gate, implicitly the gate at the actor's index) and return the handle of
its `provides` gate (the `*Dependency` returned to the caller). -/
def Group.AddDep (gr : Group E) (script : List ActorAction)
    (retVal : Option E) (dependsOn : List (Option Nat)) : Group E × Nat :=
  ({ actors := gr.actors ++ [⟨script, retVal, dependsOn⟩] }, gr.actors.length)

/-- A plain `execute func() error` body as wrapped by `Group.Add`: the
wrapper `func(ReadySignal) error { return execute() }` gives the body no
access to the readiness capability, so its observable steps are internal
work only. -/
def wrapPlain (steps : Nat) : List ActorAction :=
  List.replicate steps ActorAction.work

/-- The embedding of `Group.Add`: register through `AddDep` with the
wrapper body, discarding the returned gate handle. -/
def Group.Add (gr : Group E) (steps : Nat) (retVal : Option E)
    (dependsOn : List (Option Nat)) : Group E :=
  (gr.AddDep (wrapPlain steps) retVal dependsOn).1

/-- C9: registering via `Add` is the same as registering via `AddDep` with
an execute wrapper that ignores the readiness capability: the registered
groups are equal (so the wrapper body in particular never signals
readiness), and the resulting group has exactly the same behaviours under
`Run` — the reachable configurations coincide. -/
theorem add_is_addDep_with_wrapper (gr : Group E) (steps : Nat)
    (retVal : Option E) (dependsOn : List (Option Nat)) :
    Group.Add gr steps retVal dependsOn =
      (Group.AddDep gr (wrapPlain steps) retVal dependsOn).1 ∧
    ActorAction.sigReady ∉ wrapPlain steps ∧
    ∀ c : Config E,
      Reach (Group.Add gr steps retVal dependsOn).actors
        (initConfig (Group.Add gr steps retVal dependsOn).actors) c ↔
      Reach ((Group.AddDep gr (wrapPlain steps) retVal dependsOn).1).actors
        (initConfig
          (((Group.AddDep gr (wrapPlain steps) retVal dependsOn).1).actors)) c := by
  refine ⟨rfl, ?_, fun c => Iff.rfl⟩
  intro hmem
  rcases List.mem_replicate.mp hmem with ⟨_, h⟩
  exact absurd h (by simp)

/-- C4: a gate resolves at most once.  On a resolved gate every further
resolution sequence is a no-op (the state never changes); from `pending`
only the first resolution in a sequence takes effect; a resolved gate's
`wait` outcome is `true` for ready and `false` for interrupted; and in the
run machine a resolved gate keeps its value across every step, so all
current and future waiters observe the same single outcome. -/
theorem gate_resolves_at_most_once (E : Type) :
    (∀ s : GateState, s ≠ .pending → ∀ ops : List GateOp, applyOps ops s = s) ∧
    (∀ (op : GateOp) (ops : List GateOp),
      applyOps (op :: ops) .pending = applyOp op .pending) ∧
    waitOutcome .ready = some true ∧
    waitOutcome .interrupted = some false ∧
    ∀ (g : List (ActorSpec E)) (c c' : Config E) (k : Nat) (s : GateState),
      Step g c c' → c.gates[k]? = some s → s ≠ .pending →
      c'.gates[k]? = some s := by
  have hfix : ∀ s : GateState, s ≠ .pending → ∀ ops : List GateOp,
      applyOps ops s = s := by
    intro s hs ops
    induction ops with
    | nil => rfl
    | cons op ops ih =>
      have hop : applyOp op s = s := by
        cases op
        · exact resolveReady_of_ne_pending hs
        · exact resolveInterrupt_of_ne_pending hs
      unfold applyOps
      rw [hop, ih]
  refine ⟨hfix, ?_, rfl, rfl, ?_⟩
  · intro op ops
    have hne : applyOp op GateState.pending ≠ .pending := by
      cases op <;> simp [applyOp, resolveReady, resolveInterrupt]
    unfold applyOps
    exact hfix _ hne ops
  · intro g c c' k s hs hk hsne
    exact (step_evolve hs).keep k s hk hsne

/-- C8: a `nil` entry in an actor's input-dependency list is always
skippable: the dependency scan steps straight past it with no error, the
blocked flag unchanged, and nothing else in the configuration modified. -/
theorem nil_dep_skipped {g : List (ActorSpec E)} {c : Config E} {i j : Nat}
    {b : Bool} {spec : ActorSpec E} (hg : g[i]? = some spec)
    (ht : c.threads[i]? = some (.waiting j b))
    (hd : spec.dependsOn[j]? = some none) :
    stepActor g c i = some (setThread c i (.waiting (j + 1) b)) := by
  simp only [stepActor, hg, ht, hd]

/-- When `Run` has returned `e` on a nonempty group, `e` is the value of
the first send received and every interrupt callback was invoked with `e`
(shared helper behind the claims about the returned error). -/
theorem returned_spec {g : List (ActorSpec E)} {c : Config E}
    {e : Option E} (hreach : Reach g (initConfig g) c) (hne : g ≠ [])
    (hret : c.sched = .returned e) :
    c.sentLog.head?.map Prod.snd = some e ∧
    ∀ p ∈ c.intrLog, p.2 = e := by
  have hi := inv_reach hreach
  rcases hi.schedRet e hret with ⟨hnil, _⟩ | ⟨h1, h2, _⟩
  · exact absurd hnil hne
  · refine ⟨h1, ?_⟩
    intro p hp
    rw [h2] at hp
    obtain ⟨a, -, rfl⟩ := List.mem_map.mp hp
    rfl

/-- C1: when `Run` has returned `e` on a nonempty group, `e` is exactly the
value of the first completion report received (the head of the send log):
no other actor's error is aggregated into the result, and every interrupt
callback was invoked with exactly this terminal error, so other actors'
errors surface nowhere else. -/
theorem run_returns_first_completion {g : List (ActorSpec E)} {c : Config E}
    {e : Option E} (hreach : Reach g (initConfig g) c) (hne : g ≠ [])
    (hret : c.sched = .returned e) :
    c.sentLog.head?.map Prod.snd = some e ∧
    ∀ p ∈ c.intrLog, p.2 = e :=
  returned_spec hreach hne hret

/-- C10 (amended): the returned error is a function of the first completion
the scheduler receives: two runs of the same group that receive the same
first completion value return the same error. -/
theorem run_outcome_determined_by_first_completion
    {g : List (ActorSpec E)} {c₁ c₂ : Config E} {e₁ e₂ : Option E}
    (h₁ : Reach g (initConfig g) c₁) (h₂ : Reach g (initConfig g) c₂)
    (hr₁ : c₁.sched = .returned e₁) (hr₂ : c₂.sched = .returned e₂)
    (hne : g ≠ [])
    (hsame : c₁.sentLog.head?.map Prod.snd = c₂.sentLog.head?.map Prod.snd) :
    e₁ = e₂ := by
  have ha := returned_spec h₁ hne hr₁
  have hb := returned_spec h₂ hne hr₂
  have : some e₁ = some e₂ := by rw [← ha.1, ← hb.1, hsame]
  injection this

/-- C3: upon the first completion the scheduler walks over every registered
actor.  The step processing actor `k` applies exactly the gate
interrupt-resolution (so a pending output gate becomes interrupted and a
resolved one is left as is) and invokes actor `k`'s interrupt callback with
the terminal error; once the walk is over (draining or returned), every
registered actor — already finished, not yet started, or skipped — has its
gate resolved and its interrupt callback invoked with the terminal error. -/
theorem shutdown_interrupts_every_actor {g : List (ActorSpec E)}
    {c : Config E} (hreach : Reach g (initConfig g) c) :
    (∀ (k : Nat) (e : Option E) (c' : Config E), c.sched = .interrupting k e →
      k < g.length → stepSched g c = some c' →
      c'.gates[k]? = some (resolveInterrupt (getGate c k)) ∧
      c'.intrLog = c.intrLog ++ [(k, e)]) ∧
    (∀ (n : Nat) (e : Option E), c.sched = .draining n e →
      ∀ i : Nat, i < g.length →
        (i, e) ∈ c.intrLog ∧ c.gates[i]? ≠ some .pending) ∧
    (∀ e : Option E, c.sched = .returned e →
      ∀ i : Nat, i < g.length →
        (i, e) ∈ c.intrLog ∧ c.gates[i]? ≠ some .pending) := by
  have hi := inv_reach hreach
  refine ⟨?_, ?_, ?_⟩
  · intro k e c' hsched hk hstep
    have hltg : k < c.gates.length := by rw [hi.gatesLen]; exact hk
    simp only [stepSched, hsched, hk, if_true] at hstep
    injection hstep with hstep
    subst hstep
    constructor
    · simp only [setGate_gates]
      exact getElem?_set_self_of_lt _ hltg
    · rfl
  · intro n e hsched i hilt
    obtain ⟨h1, h2, h3⟩ := hi.schedDrain n e hsched
    refine ⟨?_, h3 i hilt⟩
    rw [h2]
    exact List.mem_map.mpr ⟨i, List.mem_range.mpr hilt, rfl⟩
  · intro e hsched i hilt
    rcases hi.schedRet e hsched with ⟨hnil, _⟩ | ⟨h1, h2, h3⟩
    · rw [hnil] at hilt
      simp at hilt
    · refine ⟨?_, h3 i hilt⟩
      rw [h2]
      exact List.mem_map.mpr ⟨i, List.mem_range.mpr hilt, rfl⟩

/-- C2: an actor's thread scans its whole input-gate list with no
short-circuiting: (1) while scanning, every gate it has passed — including
gates passed after the blocked flag was already set — was observed
resolved; (2) while its body runs, every non-`nil` input gate is resolved
ready, so execute is never invoked before every input gate has resolved
and never with an interrupted input; (3) when the scan completes, the step
invokes execute exactly when no input gate resolved as interrupted. -/
theorem execute_gated_on_all_deps {g : List (ActorSpec E)} {c : Config E}
    {i : Nat} {spec : ActorSpec E} (hreach : Reach g (initConfig g) c)
    (hg : g[i]? = some spec) :
    (∀ (j : Nat) (b : Bool), c.threads[i]? = some (.waiting j b) →
      j ≤ spec.dependsOn.length ∧
      ∀ (j' k : Nat), j' < j → spec.dependsOn[j']? = some (some k) →
        c.gates[k]? ≠ some .pending) ∧
    (∀ rest : List ActorAction, c.threads[i]? = some (.running rest) →
      ∀ (j k : Nat), spec.dependsOn[j]? = some (some k) →
        c.gates[k]? = some .ready) ∧
    (∀ (j : Nat) (b : Bool) (c' : Config E),
      c.threads[i]? = some (.waiting j b) → spec.dependsOn[j]? = none →
      stepActor g c i = some c' →
      (c'.threads[i]? = some (.running spec.script) ↔
        ∀ (j' k : Nat), spec.dependsOn[j']? = some (some k) →
          c.gates[k]? ≠ some .interrupted)) := by
  have hi := inv_reach hreach
  refine ⟨?_, ?_, ?_⟩
  · intro j b ht
    obtain ⟨hj, hscan, hflag⟩ := hi.waitInv i spec j b hg ht
    refine ⟨hj, ?_⟩
    intro j' k hj' hdk
    obtain ⟨s, hs, hsne⟩ := hscan j' k hj' hdk
    rw [hs]
    intro heq
    injection heq with heq
    exact hsne heq
  · exact fun rest ht => (hi.runInv i spec rest hg ht).2
  · intro j b c' ht hd hstep
    obtain ⟨hj, hscan, hflag⟩ := hi.waitInv i spec j b hg ht
    have hjlen : spec.dependsOn.length ≤ j := List.getElem?_eq_none_iff.mp hd
    have hlt : i < c.threads.length := (List.getElem?_eq_some_iff.mp ht).1
    simp only [stepActor, hg, ht, hd] at hstep
    cases b with
    | true =>
      simp at hstep
      subst hstep
      apply iff_of_false
      · simp only [sendVal_threads, setThread_threads]
        rw [getElem?_set_self_of_lt _ hlt]
        simp
      · intro hall
        obtain ⟨j', k, hj', hdk, hgk⟩ := hflag.mp rfl
        exact hall j' k hdk hgk
    | false =>
      simp at hstep
      subst hstep
      apply iff_of_true
      · simp only [setThread_threads]
        rw [getElem?_set_self_of_lt _ hlt]
      · intro j' k hdk hgk
        have hj' : j' < spec.dependsOn.length :=
          (List.getElem?_eq_some_iff.mp hdk).1
        exact absurd (hflag.mpr ⟨j', k, by omega, hdk, hgk⟩) (by simp)

theorem stepSched_threads {g : List (ActorSpec E)} {c c' : Config E}
    (h : stepSched g c = some c') : c'.threads = c.threads := by
  unfold stepSched at h
  split at h
  case h_1 heq =>
    split at h
    · injection h with h
      subst h
      rfl
    · exact absurd h (by simp)
  case h_2 k e heq =>
    split at h <;> (injection h with h; subst h; rfl)
  case h_3 n e heq =>
    split at h
    · split at h
      · injection h with h
        subst h
        rfl
      · exact absurd h (by simp)
    · injection h with h
      subst h
      rfl
  case h_4 e heq =>
    exact absurd h (by simp)

theorem stepSched_sentLog {g : List (ActorSpec E)} {c c' : Config E}
    (h : stepSched g c = some c') : c'.sentLog = c.sentLog := by
  unfold stepSched at h
  split at h
  case h_1 heq =>
    split at h
    · injection h with h
      subst h
      rfl
    · exact absurd h (by simp)
  case h_2 k e heq =>
    split at h <;> (injection h with h; subst h; rfl)
  case h_3 n e heq =>
    split at h
    · split at h
      · injection h with h
        subst h
        rfl
      · exact absurd h (by simp)
    · injection h with h
      subst h
      rfl
  case h_4 e heq =>
    exact absurd h (by simp)

theorem stepActor_threads_frame {g : List (ActorSpec E)} {c c' : Config E}
    {i₀ : Nat} (h : stepActor g c i₀ = some c') {i : Nat} (hne : i₀ ≠ i) :
    c'.threads[i]? = c.threads[i]? := by
  unfold stepActor at h
  split at h
  case h_1 spec j b hg ht =>
    split at h
    case h_1 hd =>
      injection h with h
      subst h
      simp [List.getElem?_set_ne hne]
    case h_2 k hd =>
      split at h
      case h_1 hgk =>
        injection h with h
        subst h
        simp [List.getElem?_set_ne hne]
      case h_2 hgk =>
        injection h with h
        subst h
        simp [List.getElem?_set_ne hne]
      case h_3 =>
        exact absurd h (by simp)
    case h_3 hd =>
      split at h
      all_goals injection h with h
      all_goals subst h
      all_goals simp [List.getElem?_set_ne hne]
  case h_2 spec rest hg ht =>
    injection h with h
    subst h
    simp [List.getElem?_set_ne hne]
  case h_3 spec rest hg ht =>
    injection h with h
    subst h
    simp [List.getElem?_set_ne hne]
  case h_4 spec hg ht =>
    injection h with h
    subst h
    simp [List.getElem?_set_ne hne]
  case h_5 =>
    exact absurd h (by simp)

theorem stepActor_sentLog_mono {g : List (ActorSpec E)} {c c' : Config E}
    {i₀ : Nat} (h : stepActor g c i₀ = some c') {p : Nat × Option E}
    (hp : p ∈ c.sentLog) : p ∈ c'.sentLog := by
  unfold stepActor at h
  split at h
  case h_1 spec j b hg ht =>
    split at h
    case h_1 hd =>
      injection h with h
      subst h
      exact hp
    case h_2 k hd =>
      split at h
      case h_1 hgk =>
        injection h with h
        subst h
        exact hp
      case h_2 hgk =>
        injection h with h
        subst h
        exact hp
      case h_3 =>
        exact absurd h (by simp)
    case h_3 hd =>
      split at h
      all_goals injection h with h
      all_goals subst h
      · exact List.mem_append_left _ hp
      · exact hp
  case h_2 spec rest hg ht =>
    injection h with h
    subst h
    exact hp
  case h_3 spec rest hg ht =>
    injection h with h
    subst h
    exact hp
  case h_4 spec hg ht =>
    injection h with h
    subst h
    exact List.mem_append_left _ hp
  case h_5 =>
    exact absurd h (by simp)

theorem step_sentLog_mono {g : List (ActorSpec E)} {c c' : Config E}
    (hs : Step g c c') {p : Nat × Option E} (hp : p ∈ c.sentLog) :
    p ∈ c'.sentLog := by
  obtain ⟨l, hl⟩ := hs
  cases l with
  | actTick i₀ => exact stepActor_sentLog_mono hl hp
  | schedTick => rw [stepSched_sentLog hl]; exact hp

theorem stepActor_done {g : List (ActorSpec E)} {c : Config E} {i : Nat}
    (ht : c.threads[i]? = some .done) : stepActor g c i = none := by
  cases hg : g[i]? <;> simp [stepActor, hg, ht]

theorem blocked_step {g : List (ActorSpec E)} {c c' : Config E} {i j : Nat}
    (hs : Step g c c') (ht : c.threads[i]? = some (.waiting j true)) :
    (∃ j' : Nat, c'.threads[i]? = some (.waiting j' true)) ∨
    (c'.threads[i]? = some .done ∧ (i, none) ∈ c'.sentLog) := by
  obtain ⟨l, hl⟩ := hs
  cases l with
  | schedTick =>
    left
    exact ⟨j, by rw [stepSched_threads hl]; exact ht⟩
  | actTick i₀ =>
    simp only [applyLabel] at hl
    by_cases hii : i = i₀
    · subst hii
      have hlt : i < c.threads.length := (List.getElem?_eq_some_iff.mp ht).1
      cases hg : g[i]? with
      | none => simp [stepActor, hg] at hl
      | some spec =>
        simp only [stepActor, hg, ht] at hl
        cases hd : spec.dependsOn[j]? with
        | none =>
          rw [hd] at hl
          simp at hl
          subst hl
          right
          constructor
          · simp only [sendVal_threads, setThread_threads]
            exact getElem?_set_self_of_lt _ hlt
          · simp
        | some d =>
          cases d with
          | none =>
            rw [hd] at hl
            simp at hl
            subst hl
            left
            refine ⟨j + 1, ?_⟩
            simp only [setThread_threads]
            exact getElem?_set_self_of_lt _ hlt
          | some k =>
            rw [hd] at hl
            simp at hl
            cases hgk : c.gates[k]? with
            | none => rw [hgk] at hl; simp at hl
            | some s =>
              rw [hgk] at hl
              cases s with
              | pending => simp at hl
              | ready =>
                simp at hl
                subst hl
                left
                refine ⟨j + 1, ?_⟩
                simp only [setThread_threads]
                exact getElem?_set_self_of_lt _ hlt
              | interrupted =>
                simp at hl
                subst hl
                left
                refine ⟨j + 1, ?_⟩
                simp only [setThread_threads]
                exact getElem?_set_self_of_lt _ hlt
    · left
      exact ⟨j, by rw [stepActor_threads_frame hl (Ne.symm hii)]; exact ht⟩

/-- C6: an actor whose dependency scan has flagged it as blocked never
invokes its execute body: in every later configuration it is either still
scanning with the blocked flag set or it has completed by reporting the
no-error completion `nil` — it never enters the running state. -/
theorem blocked_actor_skips_execute {g : List (ActorSpec E)}
    {c c' : Config E} {i j : Nat} (hreach : Reach g c c')
    (ht : c.threads[i]? = some (.waiting j true)) :
    (∃ j' : Nat, c'.threads[i]? = some (.waiting j' true)) ∨
    (c'.threads[i]? = some .done ∧ (i, none) ∈ c'.sentLog) := by
  have h' : Relation.ReflTransGen (Step g) c c' := hreach
  clear hreach
  induction h' with
  | refl => exact Or.inl ⟨j, ht⟩
  | tail hab hbc ih =>
    rcases ih with ⟨j', htb⟩ | ⟨htb, hmem⟩
    · exact blocked_step hbc htb
    · right
      constructor
      · obtain ⟨l, hl⟩ := hbc
        cases l with
        | schedTick =>
          rw [stepSched_threads hl]
          exact htb
        | actTick i₀ =>
          simp only [applyLabel] at hl
          by_cases hii : i = i₀
          · subst hii
            rw [stepActor_done htb] at hl
            exact absurd hl (by simp)
          · rw [stepActor_threads_frame hl (Ne.symm hii)]
            exact htb
      · exact step_sentLog_mono hbc hmem

/-- C5 (amended): if actor `r`'s execute body returns an error without ever
invoking its readiness signal, every actor listing gate `r` as an input
dependency never invokes its own execute body; and when the first
completion the scheduler receives is actor `r`'s report, `Run` returns
exactly that error. -/
theorem dep_error_blocks_dependents {g : List (ActorSpec E)} {c : Config E}
    {r i : Nat} {specR specI : ActorSpec E} {err : E}
    (hreach : Reach g (initConfig g) c)
    (hgr : g[r]? = some specR) (herr : specR.retVal = some err)
    (hnr : ActorAction.sigReady ∉ specR.script)
    (hgi : g[i]? = some specI) (hdep : some r ∈ specI.dependsOn) :
    (∀ rest : List ActorAction, c.threads[i]? ≠ some (.running rest)) ∧
    (∀ (e v : Option E), c.sched = .returned e →
      c.sentLog.head? = some (r, v) → e = some err) := by
  have hi := inv_reach hreach
  constructor
  · intro rest hrun
    obtain ⟨-, hrp⟩ := hi.runInv i specI rest hgi hrun
    obtain ⟨n, hn⟩ := List.getElem?_of_mem hdep
    have hready : c.gates[r]? = some .ready := hrp n r hn
    exact hnr (hi.readySrc r specR hgr hready)
  · intro e v hret hhead
    rcases hi.schedRet e hret with ⟨hnil, -⟩ | ⟨h1, -, -⟩
    · rw [hnil] at hgr
      exact absurd hgr (by simp)
    · rw [hhead] at h1
      simp at h1
      obtain ⟨s, hs, hv⟩ := hi.firstSent r v hhead
      rw [hgr] at hs
      injection hs with hs
      subst hs
      rw [h1] at hv
      rw [hv, herr]

/-- C7: on a group with zero registered actors, `Run` returns `nil`
immediately: the start configuration is already in the returned state with
no error, no actor thread exists, and no step of any kind is possible — in
particular no deadlock, since the run is already complete. -/
theorem run_empty_group (E : Type) :
    (initConfig ([] : List (ActorSpec E))).sched = SchedState.returned none ∧
    (initConfig ([] : List (ActorSpec E))).threads = [] ∧
    ∀ l : Label, applyLabel ([] : List (ActorSpec E)) (initConfig []) l = none := by
  refine ⟨rfl, rfl, ?_⟩
  intro l
  cases l with
  | actTick i => rfl
  | schedTick => rfl

/-!  Concrete groups, schedules and configurations used by the witnesses
and counterexamples below.  Each final configuration was obtained by
running the corresponding explicit schedule with `runLabels`. -/

def gC1 : List (ActorSpec Nat) := [⟨[], some 5, []⟩]

def trC1 : List Label :=
  [.actTick 0, .actTick 0, .schedTick, .schedTick, .schedTick, .schedTick]

def cC1 : Config Nat :=
  { gates := [.interrupted], threads := [.done], chan := [],
    sentLog := [(0, some 5)], intrLog := [(0, some 5)],
    sched := .returned (some 5) }

/-- Witness for C1: a one-actor run returning error `5`. -/
theorem run_returns_first_completion_witness :
    gC1 ≠ [] ∧ cC1.sched = .returned (some 5) ∧
    (cC1.sentLog.head?.map Prod.snd = some (some 5) ∧
      ∀ p ∈ cC1.intrLog, p.2 = some 5) :=
  ⟨by decide, rfl,
    run_returns_first_completion
      (runLabels_reach (show runLabels gC1 (initConfig gC1) trC1 = some cC1 from rfl))
      (by decide) rfl⟩

def gC2 : List (ActorSpec Nat) :=
  [⟨[.sigReady], none, []⟩, ⟨[], none, [some 0]⟩]

def trC2 : List Label := [.actTick 0, .actTick 0, .actTick 1, .actTick 1]

def cC2 : Config Nat :=
  { gates := [.ready, .pending], threads := [.running [], .running []],
    chan := [], sentLog := [], intrLog := [], sched := .recvFirst }

/-- Witness for C2: in a run where the dependent actor (index 1) has
entered its execute body, its input gate (gate 0) is resolved ready. -/
theorem execute_gated_on_all_deps_witness :
    gC2[1]? = some ⟨[], none, [some 0]⟩ ∧
    cC2.threads[1]? = some (.running []) ∧
    (⟨[], none, [some 0]⟩ : ActorSpec Nat).dependsOn[0]? = some (some 0) ∧
    cC2.gates[0]? = some .ready := by
  refine ⟨rfl, rfl, rfl, ?_⟩
  exact (execute_gated_on_all_deps
    (runLabels_reach (show runLabels gC2 (initConfig gC2) trC2 = some cC2 from rfl))
    (show gC2[1]? = some (⟨[], none, [some 0]⟩ : ActorSpec Nat) from rfl)).2.1
    [] rfl 0 0 rfl

def gC3 : List (ActorSpec Nat) := [⟨[.sigReady], some 3, []⟩]

def trC3 : List Label :=
  [.actTick 0, .actTick 0, .actTick 0, .schedTick, .schedTick, .schedTick,
   .schedTick]

def cC3 : Config Nat :=
  { gates := [.ready], threads := [.done], chan := [],
    sentLog := [(0, some 3)], intrLog := [(0, some 3)],
    sched := .returned (some 3) }

/-- Witness for C3: after a full run, the only actor's interrupt callback
was invoked with the terminal error and its output gate is resolved (here
it had already resolved ready, and the scheduler's interrupt-resolution
left it so). -/
theorem shutdown_interrupts_every_actor_witness :
    cC3.sched = .returned (some 3) ∧ (0 : Nat) < gC3.length ∧
    ((0, some 3) ∈ cC3.intrLog ∧ cC3.gates[0]? ≠ some .pending) :=
  ⟨rfl, by decide,
    (shutdown_interrupts_every_actor
      (runLabels_reach
        (show runLabels gC3 (initConfig gC3) trC3 = some cC3 from rfl))).2.2
      (some 3) rfl 0 (by decide)⟩

def gC4 : List (ActorSpec Nat) := [⟨[.sigReady], some 9, []⟩]

def cC4a : Config Nat :=
  { gates := [.ready], threads := [.running []], chan := [], sentLog := [],
    intrLog := [], sched := .recvFirst }

def cC4b : Config Nat :=
  { gates := [.ready], threads := [.done], chan := [some 9],
    sentLog := [(0, some 9)], intrLog := [], sched := .recvFirst }

/-- Witness for C4: a resolved-ready gate absorbs a later interrupt-then
ready sequence; from pending only the first of two requests takes effect;
and across a machine step a resolved gate keeps its value. -/
theorem gate_resolves_at_most_once_witness :
    (GateState.ready ≠ GateState.pending ∧
      applyOps [GateOp.intr, GateOp.rdy] .ready = .ready) ∧
    applyOps [GateOp.rdy, GateOp.intr] .pending = applyOp GateOp.rdy .pending ∧
    (Step gC4 cC4a cC4b ∧ cC4a.gates[0]? = some .ready ∧
      cC4b.gates[0]? = some .ready) :=
  ⟨⟨by decide, (gate_resolves_at_most_once Nat).1 .ready (by decide) [.intr, .rdy]⟩,
    (gate_resolves_at_most_once Nat).2.1 .rdy [.intr],
    ⟨Label.actTick 0, rfl⟩, rfl,
    (gate_resolves_at_most_once Nat).2.2.2.2 gC4 cC4a cC4b 0 .ready
      ⟨Label.actTick 0, rfl⟩ rfl (by decide)⟩

def gC5x : List (ActorSpec Nat) :=
  [⟨[], none, []⟩, ⟨[], some 7, []⟩, ⟨[], none, [some 1]⟩]

def trC5x : List Label :=
  [.actTick 0, .actTick 0, .schedTick, .schedTick, .schedTick, .schedTick,
   .schedTick, .actTick 1, .actTick 1, .actTick 2, .actTick 2, .schedTick,
   .schedTick, .schedTick]

def cC5x : Config Nat :=
  { gates := [.interrupted, .interrupted, .interrupted],
    threads := [.done, .done, .done], chan := [],
    sentLog := [(0, none), (1, some 7), (2, none)],
    intrLog := [(0, none), (1, none), (2, none)],
    sched := .returned none }

/-- Counterexample to C5 as stated: actor 1's execute returns error `7`
without ever signaling readiness, yet this run of `Run` returns `nil`,
because the unrelated actor 0's completion was received first. -/
theorem dep_error_not_always_returned :
    gC5x[1]? = some ⟨[], some 7, []⟩ ∧
    gC5x[2]? = some ⟨[], none, [some 1]⟩ ∧
    ActorAction.sigReady ∉ (⟨[], some 7, []⟩ : ActorSpec Nat).script ∧
    Reach gC5x (initConfig gC5x) cC5x ∧
    (1, some 7) ∈ cC5x.sentLog ∧
    cC5x.sched = .returned none ∧
    (none : Option Nat) ≠ some 7 :=
  ⟨rfl, rfl, by decide,
    runLabels_reach (show runLabels gC5x (initConfig gC5x) trC5x = some cC5x from rfl),
    by decide, rfl, by decide⟩

def gC5w : List (ActorSpec Nat) := [⟨[], some 7, []⟩, ⟨[], none, [some 0]⟩]

def trC5w : List Label :=
  [.actTick 0, .actTick 0, .schedTick, .schedTick, .schedTick, .schedTick,
   .actTick 1, .actTick 1, .schedTick, .schedTick]

def cC5w : Config Nat :=
  { gates := [.interrupted, .interrupted], threads := [.done, .done],
    chan := [], sentLog := [(0, some 7), (1, none)],
    intrLog := [(0, some 7), (1, some 7)], sched := .returned (some 7) }

/-- Witness for the amended C5: actor 0 errors with `7` without signaling
readiness; its dependent (actor 1) never runs its body, and since actor
0's completion is received first, `Run` returns `7`. -/
theorem dep_error_blocks_dependents_witness :
    gC5w[0]? = some ⟨[], some 7, []⟩ ∧
    gC5w[1]? = some ⟨[], none, [some 0]⟩ ∧
    cC5w.sched = .returned (some 7) ∧
    cC5w.sentLog.head? = some (0, some 7) ∧
    (∀ rest : List ActorAction, cC5w.threads[1]? ≠ some (.running rest)) ∧
    (some 7 : Option Nat) = some 7 := by
  refine ⟨rfl, rfl, rfl, rfl, ?_, ?_⟩
  · exact (dep_error_blocks_dependents
      (runLabels_reach (show runLabels gC5w (initConfig gC5w) trC5w = some cC5w from rfl))
      (show gC5w[0]? = some (⟨[], some 7, []⟩ : ActorSpec Nat) from rfl)
      (show (⟨[], some 7, []⟩ : ActorSpec Nat).retVal = some 7 from rfl)
      (by decide)
      (show gC5w[1]? = some (⟨[], none, [some 0]⟩ : ActorSpec Nat) from rfl)
      (by decide)).1
  · exact (dep_error_blocks_dependents
      (runLabels_reach (show runLabels gC5w (initConfig gC5w) trC5w = some cC5w from rfl))
      (show gC5w[0]? = some (⟨[], some 7, []⟩ : ActorSpec Nat) from rfl)
      (show (⟨[], some 7, []⟩ : ActorSpec Nat).retVal = some 7 from rfl)
      (by decide)
      (show gC5w[1]? = some (⟨[], none, [some 0]⟩ : ActorSpec Nat) from rfl)
      (by decide)).2 (some 7) (some 7) rfl rfl

def gC6 : List (ActorSpec Nat) := [⟨[], some 4, [none]⟩]

def cC6a : Config Nat :=
  { gates := [.pending], threads := [.waiting 0 true], chan := [],
    sentLog := [], intrLog := [], sched := .recvFirst }

def cC6b : Config Nat :=
  { gates := [.pending], threads := [.done], chan := [none],
    sentLog := [(0, none)], intrLog := [], sched := .recvFirst }

/-- Witness for C6: an actor flagged blocked finishes by reporting the
no-error completion, never entering the running state. -/
theorem blocked_actor_skips_execute_witness :
    cC6a.threads[0]? = some (.waiting 0 true) ∧
    ((∃ j' : Nat, cC6b.threads[0]? = some (.waiting j' true)) ∨
      (cC6b.threads[0]? = some .done ∧
        ((0 : Nat), (none : Option Nat)) ∈ cC6b.sentLog)) :=
  ⟨rfl,
    blocked_actor_skips_execute
      (runLabels_reach
        (show runLabels gC6 cC6a [.actTick 0, .actTick 0] = some cC6b from rfl))
      (show cC6a.threads[0]? = some (.waiting 0 true) from rfl)⟩

def gC8 : List (ActorSpec Nat) := [⟨[], none, [none]⟩]

/-- Witness for C8: the scan of a `nil` dependency entry is a step that
simply advances the scan position, leaving the blocked flag false. -/
theorem nil_dep_skipped_witness :
    gC8[0]? = some ⟨[], none, [none]⟩ ∧
    (initConfig gC8).threads[0]? = some (.waiting 0 false) ∧
    stepActor gC8 (initConfig gC8) 0 =
      some (setThread (initConfig gC8) 0 (.waiting 1 false)) :=
  ⟨rfl, rfl,
    nil_dep_skipped
      (show gC8[0]? = some (⟨[], none, [none]⟩ : ActorSpec Nat) from rfl)
      (show (initConfig gC8).threads[0]? = some (.waiting 0 false) from rfl)
      (show (⟨[], none, [none]⟩ : ActorSpec Nat).dependsOn[0]? = some none from rfl)⟩

def gC10 : List (ActorSpec Nat) := [⟨[], some 1, []⟩, ⟨[], some 2, []⟩]

def trC10a : List Label :=
  [.actTick 0, .actTick 0, .schedTick, .actTick 1, .actTick 1, .schedTick,
   .schedTick, .schedTick, .schedTick, .schedTick]

def trC10a2 : List Label :=
  [.actTick 0, .actTick 0, .actTick 1, .actTick 1, .schedTick, .schedTick,
   .schedTick, .schedTick, .schedTick, .schedTick]

def trC10b : List Label :=
  [.actTick 1, .actTick 1, .schedTick, .actTick 0, .actTick 0, .schedTick,
   .schedTick, .schedTick, .schedTick, .schedTick]

def cC10a : Config Nat :=
  { gates := [.interrupted, .interrupted], threads := [.done, .done],
    chan := [], sentLog := [(0, some 1), (1, some 2)],
    intrLog := [(0, some 1), (1, some 1)], sched := .returned (some 1) }

def cC10b : Config Nat :=
  { gates := [.interrupted, .interrupted], threads := [.done, .done],
    chan := [], sentLog := [(1, some 2), (0, some 1)],
    intrLog := [(0, some 2), (1, some 2)], sched := .returned (some 2) }

/-- Counterexample to C10 as stated: with the same fixed two-actor group
(actor 0 returns error `1`, actor 1 returns error `2`, deterministic
bodies), one schedule makes `Run` return `1` and another makes it return
`2`. -/
theorem run_outcome_schedule_dependent :
    Reach gC10 (initConfig gC10) cC10a ∧
    Reach gC10 (initConfig gC10) cC10b ∧
    cC10a.sched = .returned (some 1) ∧
    cC10b.sched = .returned (some 2) ∧
    (some 1 : Option Nat) ≠ some 2 :=
  ⟨runLabels_reach (show runLabels gC10 (initConfig gC10) trC10a = some cC10a from rfl),
    runLabels_reach (show runLabels gC10 (initConfig gC10) trC10b = some cC10b from rfl),
    rfl, rfl, by decide⟩

/-- Witness for the amended C10: two different schedules of the same group
that receive the same first completion return the same error. -/
theorem run_outcome_determined_by_first_completion_witness :
    cC10a.sched = .returned (some 1) ∧
    cC10a.sentLog.head?.map Prod.snd = some (some 1) ∧
    (some 1 : Option Nat) = some 1 :=
  ⟨rfl, rfl,
    run_outcome_determined_by_first_completion
      (runLabels_reach (show runLabels gC10 (initConfig gC10) trC10a = some cC10a from rfl))
      (runLabels_reach (show runLabels gC10 (initConfig gC10) trC10a2 = some cC10a from rfl))
      rfl rfl (by decide) rfl⟩

end Deprun
